import Mathlib

/-!
Verification of the Training Progression Engine of the ai-coach repository.

The definitions below are a shallow embedding of the Python sources:
  app/services/ai_service.py      (oracle response parsing)
  app/services/training_service.py (state machine)
  app/services/message_service.py  (conversation log)
  app/schemas/ai_response.py       (verdict schema)
  app/services/course_service.py   (scenario catalog lookup)
Timestamps are modeled as naturals, the database rows as records, and the
external LLM call as an explicit parameter (raw text or a network failure).
-/

namespace AICoach

/-! ## JSON values, modeling the output of json.loads -/

/-- A parsed JSON value. Integer literals become num; number tokens with a
fraction or exponent (Python floats) are kept as raw token text in flt, since
no engine logic inspects float values. Objects keep insertion order. -/
inductive Json where
  | null : Json
  | bool (b : Bool) : Json
  | num (n : Int) : Json
  | flt (raw : String) : Json
  | str (s : String) : Json
  | arr (xs : List Json) : Json
  | obj (kvs : List (String × Json)) : Json

/-- Whitespace skipping as in the json module: space, tab, newline, return. -/
def skipWs : List Char → List Char
  | [] => []
  | c :: cs =>
    if c = ' ' || c = '\t' || c = '\n' || c = '\x0d' then skipWs cs else c :: cs

/-- Hex digit value, for string escapes of the form backslash-u. -/
def hexDigit (c : Char) : Option Nat :=
  if '0' ≤ c ∧ c ≤ '9' then some (c.toNat - 48)
  else if 'a' ≤ c ∧ c ≤ 'f' then some (c.toNat - 87)
  else if 'A' ≤ c ∧ c ≤ 'F' then some (c.toNat - 55)
  else none

/-- JSON string body parser, positioned after the opening quote. Strict mode
of json.loads: raw control characters below 0x20 are rejected. Surrogate-pair
combination of two adjacent backslash-u escapes is not modeled; each escape
becomes one character. -/
def parseStrAux (acc : List Char) : List Char → Option (String × List Char)
  | '"' :: cs => some (⟨acc.reverse⟩, cs)
  | '\\' :: '"' :: cs => parseStrAux ('"' :: acc) cs
  | '\\' :: '\\' :: cs => parseStrAux ('\\' :: acc) cs
  | '\\' :: '/' :: cs => parseStrAux ('/' :: acc) cs
  | '\\' :: 'b' :: cs => parseStrAux (Char.ofNat 8 :: acc) cs
  | '\\' :: 'f' :: cs => parseStrAux (Char.ofNat 12 :: acc) cs
  | '\\' :: 'n' :: cs => parseStrAux ('\n' :: acc) cs
  | '\\' :: 'r' :: cs => parseStrAux (Char.ofNat 13 :: acc) cs
  | '\\' :: 't' :: cs => parseStrAux ('\t' :: acc) cs
  | '\\' :: 'u' :: h1 :: h2 :: h3 :: h4 :: cs =>
    match hexDigit h1, hexDigit h2, hexDigit h3, hexDigit h4 with
    | some a, some b, some c, some d =>
      parseStrAux (Char.ofNat (a * 4096 + b * 256 + c * 16 + d) :: acc) cs
    | _, _, _, _ => none
  | '\\' :: _ => none
  | c :: cs => if c.toNat < 32 then none else parseStrAux (c :: acc) cs
  | [] => none

/-- Longest digit prefix, and the remainder. -/
def spanDigits : List Char → (List Char × List Char)
  | [] => ([], [])
  | c :: cs =>
    if c.isDigit then
      let p := spanDigits cs
      (c :: p.1, p.2)
    else ([], c :: cs)

/-- Digit list to a natural number. -/
def digitsToNat (ds : List Char) : Nat :=
  ds.foldl (fun n c => n * 10 + (c.toNat - 48)) 0

/-- JSON number token, following the NUMBER_RE regex of the json module:
an optional minus, an integer part with no leading zeros, then an optional
fraction (a dot followed by at least one digit) and an optional exponent
(e or E, an optional sign, at least one digit). A dot or exponent marker not
followed by digits simply ends the token, as with the regex. A token with a
fraction or exponent is a Python float and is kept as raw text. -/
def parseNumber (cs : List Char) : Option (Json × List Char) :=
  let negPair : Bool × List Char :=
    match cs with
    | '-' :: r => (true, r)
    | _ => (false, cs)
  let neg := negPair.1
  let cs1 := negPair.2
  match cs1 with
  | [] => none
  | c :: rest =>
    if ¬ c.isDigit then none
    else
      let intPair : List Char × List Char :=
        if c = '0' then (['0'], rest) else spanDigits cs1
      let intDs := intPair.1
      let afterInt := intPair.2
      let fracPair : List Char × List Char :=
        match afterInt with
        | '.' :: r2 =>
          let p := spanDigits r2
          if p.1 = [] then ([], afterInt) else ('.' :: p.1, p.2)
        | _ => ([], afterInt)
      let fracDs := fracPair.1
      let afterFrac := fracPair.2
      let expPair : List Char × List Char :=
        match afterFrac with
        | e :: r3 =>
          if e = 'e' ∨ e = 'E' then
            match r3 with
            | s :: r4 =>
              if s = '+' ∨ s = '-' then
                let p := spanDigits r4
                if p.1 = [] then ([], afterFrac) else (e :: s :: p.1, p.2)
              else
                let p := spanDigits r3
                if p.1 = [] then ([], afterFrac) else (e :: p.1, p.2)
            | [] => ([], afterFrac)
          else ([], afterFrac)
        | [] => ([], afterFrac)
      let expDs := expPair.1
      let afterExp := expPair.2
      if fracDs = [] ∧ expDs = [] then
        let v : Int := Int.ofNat (digitsToNat intDs)
        some (Json.num (if neg then -v else v), afterInt)
      else
        let raw : List Char :=
          (if neg then ['-'] else []) ++ intDs ++ fracDs ++ expDs
        some (Json.flt ⟨raw⟩, afterExp)

mutual

/-- JSON value parser, positioned at a value; skips leading whitespace.
Mirrors the default json.loads scanner, including the NaN and Infinity
constants it accepts. The fuel argument only bounds recursion depth; the
top entry point supplies more fuel than any input can consume. -/
def parseValue : Nat → List Char → Option (Json × List Char)
  | 0, _ => none
  | fuel + 1, cs0 =>
    let cs := skipWs cs0
    match cs with
    | '"' :: r => (parseStrAux [] r).map (fun p => (Json.str p.1, p.2))
    | '\x7b' :: r => parseObjBody fuel r
    | '[' :: r => parseArrBody fuel r
    | _ =>
      if ("null".data).isPrefixOf cs then some (Json.null, cs.drop 4)
      else if ("true".data).isPrefixOf cs then some (Json.bool true, cs.drop 4)
      else if ("false".data).isPrefixOf cs then some (Json.bool false, cs.drop 5)
      else if ("NaN".data).isPrefixOf cs then some (Json.flt "NaN", cs.drop 3)
      else if ("Infinity".data).isPrefixOf cs then some (Json.flt "Infinity", cs.drop 8)
      else if ("-Infinity".data).isPrefixOf cs then some (Json.flt "-Infinity", cs.drop 9)
      else parseNumber cs

/-- Object body parser, positioned right after the opening brace. -/
def parseObjBody : Nat → List Char → Option (Json × List Char)
  | 0, _ => none
  | fuel + 1, cs0 =>
    let cs := skipWs cs0
    match cs with
    | '\x7d' :: rest => some (Json.obj [], rest)
    | _ => parseMembers fuel [] cs

/-- Object member list: a quoted key, a colon, a value, then a comma or the
closing brace. Duplicate keys are kept in order; lookup takes the last one,
matching Python dict construction. -/
def parseMembers : Nat → List (String × Json) → List Char → Option (Json × List Char)
  | 0, _, _ => none
  | fuel + 1, acc, cs0 =>
    let cs := skipWs cs0
    match cs with
    | '"' :: r =>
      match parseStrAux [] r with
      | some (k, r2) =>
        let r3 := skipWs r2
        match r3 with
        | ':' :: r4 =>
          match parseValue fuel r4 with
          | some (v, r5) =>
            let r6 := skipWs r5
            match r6 with
            | ',' :: r7 => parseMembers fuel (acc ++ [(k, v)]) r7
            | '\x7d' :: r7 => some (Json.obj (acc ++ [(k, v)]), r7)
            | _ => none
          | none => none
        | _ => none
      | none => none
    | _ => none

/-- Array body parser, positioned right after the opening bracket. -/
def parseArrBody : Nat → List Char → Option (Json × List Char)
  | 0, _ => none
  | fuel + 1, cs0 =>
    let cs := skipWs cs0
    match cs with
    | ']' :: rest => some (Json.arr [], rest)
    | _ => parseElems fuel [] cs

/-- Array element list: a value, then a comma or the closing bracket. -/
def parseElems : Nat → List Json → List Char → Option (Json × List Char)
  | 0, _, _ => none
  | fuel + 1, acc, cs =>
    match parseValue fuel cs with
    | some (v, r) =>
      let r2 := skipWs r
      match r2 with
      | ',' :: r3 => parseElems fuel (acc ++ [v]) r3
      | ']' :: r3 => some (Json.arr (acc ++ [v]), r3)
      | _ => none
    | none => none

end

/-- Model of json.loads: parse one value, allow surrounding whitespace,
reject trailing data. Returns none where Python raises JSONDecodeError. -/
def jsonLoads (s : String) : Option Json :=
  match parseValue (s.data.length + 8) s.data with
  | some (v, rest) => if skipWs rest = [] then some v else none
  | none => none

/-- Dictionary lookup with a default: dict.get semantics. For duplicate keys
the last occurrence wins, as in Python dict construction. -/
def objGet (kvs : List (String × Json)) (k : String) : Option Json :=
  kvs.foldl (fun acc p => if p.1 = k then some p.2 else acc) none

/-! ## AIResponse (app/schemas/ai_response.py) -/

/-- The AIResponse pydantic model: reply text, finality flag, pass flag,
score and reason. Fields mirror app/schemas/ai_response.py. -/
structure AIResponse where
  reply : String
  is_final : Bool := false
  pass_ : Bool := false
  score : Int := 0
  reason : String := ""
deriving DecidableEq

/-- AIResponse.from_dict: field lookups with defaults, then pydantic
validation. A call on a non-dict value raises AttributeError in Python and
validation of an ill-typed field raises ValidationError; both uncaught
exceptions are modeled as none. Pydantic lax coercions of non-canonical
field types (for example a numeric string as score) are not modeled and
also map to none. -/
def fromDict : Json → Option AIResponse
  | Json.obj kvs =>
    match (objGet kvs "reply").getD (Json.str ""),
          (objGet kvs "is_final").getD (Json.bool false),
          (objGet kvs "pass").getD (Json.bool false),
          (objGet kvs "score").getD (Json.num 0),
          (objGet kvs "reason").getD (Json.str "") with
    | Json.str reply, Json.bool isf, Json.bool ps, Json.num sc, Json.str rsn =>
      some { reply := reply, is_final := isf, pass_ := ps, score := sc, reason := rsn }
    | _, _, _, _, _ => none
  | _ => none

/-! ## Tolerant verdict extraction (AIService, ai_service.py) -/

/-- The literal searched for by the tolerant extraction: the quoted key
reply, seven characters long. -/
def replyLit : List Char := "\"reply\"".data

/-- First index at or after the start of the given list where the needle
occurs, counting from the supplied base index. -/
def findLitAux (needle : List Char) : List Char → Nat → Option Nat
  | [], i => if needle.isPrefixOf [] then some i else none
  | c :: rest, i =>
    if needle.isPrefixOf (c :: rest) then some i else findLitAux needle rest (i + 1)

/-- First occurrence of the needle in the full list at an index no smaller
than start. -/
def findLitFrom (needle full : List Char) (start : Nat) : Option Nat :=
  (findLitAux needle (full.drop start) start)

/-- First occurrence of a single character at an index no smaller than
start. -/
def findCharFrom (ch : Char) (full : List Char) (start : Nat) : Option Nat :=
  findLitFrom [ch] full start

/-- Scanner for the lazy pattern used in AIService._parse_response: an open
brace, a shortest run of any characters, the quoted reply key, a shortest
run of any characters, a closing brace. For each candidate start position
holding an open brace, lazy matching finds the first occurrence of the
reply literal after it and the first closing brace at least seven
characters later; re.search takes the leftmost start position that
succeeds. Returns the inclusive bounds of the match. -/
def candScan (full : List Char) : List Char → Nat → Option (Nat × Nat)
  | [], _ => none
  | c :: rest, p =>
    if c = '\x7b' then
      match findLitFrom replyLit full (p + 1) with
      | some j =>
        match findCharFrom '\x7d' full (j + 7) with
        | some k => some (p, k)
        | none => candScan full rest (p + 1)
      | none => candScan full rest (p + 1)
    else candScan full rest (p + 1)

/-- The substring matched by the tolerant search, when any. -/
def jsonCandidate (s : String) : Option String :=
  (candScan s.data s.data 0).map
    (fun pk => ⟨(s.data.drop pk.1).take (pk.2 + 1 - pk.1)⟩)

/-- The whole-string fallback of AIService._parse_response: parse the entire
content; on success build the response from the dict, otherwise synthesize
the fail-open default carrying the raw content as the reply. -/
def parseResponseWhole (content : String) : Option AIResponse :=
  match jsonLoads content with
  | some v => fromDict v
  | none => some { reply := content, is_final := false, pass_ := false, score := 0, reason := "" }

/-- AIService._parse_response: try the tolerant substring first; if it
parses, build the response from it (an exception from from_dict escapes,
modeled as none); if it does not parse, or no candidate exists, fall back
to the whole-string parse and then to the fail-open default. -/
def parseResponse (content : String) : Option AIResponse :=
  match jsonCandidate content with
  | some sub =>
    match jsonLoads sub with
    | some v => fromDict v
    | none => parseResponseWhole content
  | none => parseResponseWhole content

example : parseResponse "hello there" =
    some { reply := "hello there", is_final := false, pass_ := false, score := 0, reason := "" } := by
  decide

/-! ## Data model (app/models/user.py, user_training.py, message.py,
course.py, app/schemas/ai_response.py) -/

/-- The final training day, MAX_TRAINING_DAY in training_service.py. -/
def MAX_TRAINING_DAY : Nat := 14

/-- A training batch, reduced to the fields the engine reads: the course
version and the batch name used in the progress summary. -/
structure Batch where
  course_version : String
  name : String
deriving DecidableEq

/-- A UserTraining row. Lifecycle timestamps other than completed_at are
never read by the engine and are omitted. The columns testing_day and
attempt_started_at are added by the migrations in app/database.py and are
read and written by TrainingService. -/
structure Training where
  current_day : Nat
  current_round : Nat
  status : String
  persona : Option String
  batch : Option Batch
  testing_day : Option Nat
  attempt_started_at : Option Nat
  completed_at : Option Nat
deriving DecidableEq

/-- A User row, reduced to the training-relevant fields. The relationship
user.trainings is ordered most recently created first; the list below is in
that iteration order. current_round is nullable in the schema and read with
an or-zero default. -/
structure UserRec where
  current_day : Nat
  current_round : Option Nat
  persona : Option String
  trainings : List Training
deriving DecidableEq

/-- A Message row (one conversation turn). The log is append-only and kept
in insertion order, which coincides with ascending created_at because the
engine stamps each row with the current time. -/
structure Msg where
  training_day : Nat
  user_message : String
  ai_reply : String
  passed : Bool
  score : Int
  reason : String
  created_at : Nat
deriving DecidableEq

/-- The persistent state the engine reads and writes for one trainee: the
user row and the conversation log. -/
structure EngineState where
  user : UserRec
  messages : List Msg
deriving DecidableEq

/-- A scenario day as the dict produced by Course.to_dict or by the static
DAYS_DATA entries. Only the fields the engine logic inspects are kept; the
remaining fields (goal, openings, criteria, round bounds) only feed the
prompt template passed to the language model. -/
structure DayData where
  day : Nat
  title : String
  type : Option String
  teaching_content : Option String
deriving DecidableEq

/-- The scenario catalog: the courses table keyed by version and day
(active rows only, as in CourseService.get_course_by_day) and the static
DAYS_DATA fallback keyed by day. Both are environment data for the engine. -/
structure Catalog where
  dbCourse : String → Nat → Option DayData
  staticDays : Nat → Option DayData

/-- get_course_data of course_service.py: the database first, then the
static data as a backward-compatible fallback. -/
def getCourseData (cat : Catalog) (version : String) (day : Nat) : Option DayData :=
  match cat.dbCourse version day with
  | some c => some c
  | none => cat.staticDays day

/-- TrainingResult of app/schemas/ai_response.py. -/
structure TrainingResult where
  user_message : String
  ai_response : AIResponse
  current_day : Nat
  next_day : Nat
  is_completed : Bool
  round_count : Nat
deriving DecidableEq

/-- One entry of the conversation history handed to the oracle. -/
structure ChatMsg where
  role : String
  content : String
deriving DecidableEq

/-! ## Accessors of TrainingService (training_service.py) -/

/-- The loop shared by the underscore accessors: the first training in the
iteration order of user.trainings whose status is active, together with its
position, which identifies the row that later mutations write to. -/
def findActive : List Training → Option (Nat × Training)
  | [] => none
  | t :: ts =>
    if t.status = "active" then some (0, t)
    else (findActive ts).map (fun p => (p.1 + 1, p.2))

/-- TrainingService._get_training_day. -/
def trainingDay (u : UserRec) : Nat :=
  match findActive u.trainings with
  | some p => p.2.current_day
  | none => u.current_day

/-- TrainingService._get_testing_day: the day under test when set, else the
official current day. -/
def testingDay (u : UserRec) : Nat :=
  match findActive u.trainings with
  | some p =>
    match p.2.testing_day with
    | some td => td
    | none => p.2.current_day
  | none => u.current_day

/-- TrainingService._is_manual_test: a manual test is an exchange whose day
under test is set and differs from the official current day. -/
def isManualTest (u : UserRec) : Bool :=
  match findActive u.trainings with
  | some p =>
    match p.2.testing_day with
    | some td => td ≠ p.2.current_day
    | none => false
  | none => false

/-- TrainingService._get_training_round, with the or-zero default on the
legacy user column. -/
def trainingRound (u : UserRec) : Nat :=
  match findActive u.trainings with
  | some p => p.2.current_round
  | none => u.current_round.getD 0

/-- TrainingService._get_training_persona. The Python truthiness test means
an empty persona string on the training row also falls back to the user
column. -/
def trainingPersona (u : UserRec) : Option String :=
  match findActive u.trainings with
  | some p =>
    match p.2.persona with
    | some s => if s = "" then u.persona else some s
    | none => u.persona
  | none => u.persona

/-- TrainingService._get_course_version, defaulting to v1 when the training
has no batch. -/
def courseVersion (u : UserRec) : String :=
  match findActive u.trainings with
  | some p =>
    match p.2.batch with
    | some b => b.course_version
    | none => "v1"
  | none => "v1"

/-- TrainingService._get_attempt_started_at. -/
def attemptStartedAt (u : UserRec) : Option Nat :=
  match findActive u.trainings with
  | some p => p.2.attempt_started_at
  | none => none

/-- The raw day-under-test column of the active training, used to state
frame properties about clearing it. -/
def activeTestingDay (u : UserRec) : Option Nat :=
  match findActive u.trainings with
  | some p => p.2.testing_day
  | none => none

/-- TrainingService._get_persona_letter: the letter A when the stored
persona contains the character A, else B; A when nothing is stored. -/
def personaLetter (u : UserRec) : String :=
  match trainingPersona u with
  | some p => if p = "" then "A" else if p.contains 'A' then "A" else "B"
  | none => "A"

/-! ## Conversation log scoping (message_service.py, training_service.py) -/

/-- Modelled from the spec: MessageService.get_current_attempt_messages is
called by TrainingService.get_conversation_history but its definition is
absent from the source tree. Following the words of the spec, it returns
all conversation turns of this trainee with dayTested equal to the given
day and createdAt at or after the attemptStartedAt watermark, all turns of
the day when the watermark is null, ordered oldest first (the log is held
in chronological order). -/
def getCurrentAttemptMessages (log : List Msg) (day : Nat) (attempt : Option Nat) : List Msg :=
  log.filter (fun m =>
    m.training_day == day &&
      match attempt with
      | some w => w ≤ m.created_at
      | none => true)

/-- The per-message loop body of get_conversation_history: each logged turn
contributes a user entry then an assistant entry. -/
def historyPairs : List Msg → List ChatMsg
  | [] => []
  | m :: ms =>
    { role := "user", content := m.user_message } ::
      { role := "assistant", content := m.ai_reply } :: historyPairs ms

/-- TrainingService.get_conversation_history: scope the log to the current
attempt of the effective day, keep the last limit rows of that list, then
iterate over them in reversed order building user and assistant entries. -/
def getConversationHistory (st : EngineState) (limit : Nat := 10) : List ChatMsg :=
  let msgs := getCurrentAttemptMessages st.messages (testingDay st.user) (attemptStartedAt st.user)
  historyPairs (msgs.drop (msgs.length - limit)).reverse

/-! ## State mutation helpers of TrainingService -/

/-- Replace the element at the given index, if any. SQLAlchemy mutations on
the training object captured at entry become functional updates at its
position in the list. -/
def updAt : List Training → Nat → (Training → Training) → List Training
  | [], _, _ => []
  | t :: ts, 0, f => f t :: ts
  | t :: ts, n + 1, f => t :: updAt ts n f

/-- TrainingService._update_progress: write the new day to the active
training when one exists, else to the legacy user column. -/
def setDayU (u : UserRec) (idx : Option Nat) (d : Nat) : UserRec :=
  match idx with
  | some i => { u with trainings := updAt u.trainings i (fun t => { t with current_day := d }) }
  | none => { u with current_day := d }

/-- TrainingService._update_round and _reset_round: write the round counter
to the active training when one exists, else to the legacy user column. -/
def setRoundU (u : UserRec) (idx : Option Nat) (r : Nat) : UserRec :=
  match idx with
  | some i => { u with trainings := updAt u.trainings i (fun t => { t with current_round := r }) }
  | none => { u with current_round := some r }

/-- TrainingService._clear_testing_day: a no-op without an active
training. -/
def clearTestingU (u : UserRec) (idx : Option Nat) : UserRec :=
  match idx with
  | some i => { u with trainings := updAt u.trainings i (fun t => { t with testing_day := none }) }
  | none => u

/-- The completion write of process_training: status completed and the
completion timestamp, only when an active training exists. -/
def completeU (u : UserRec) (idx : Option Nat) (now : Nat) : UserRec :=
  match idx with
  | some i => { u with trainings := updAt u.trainings i (fun t => { t with status := "completed", completed_at := some now }) }
  | none => u

/-- MessageService.save_message: append one turn stamped with the effective
day and the current time. -/
def mkMsg (userMessage : String) (resp : AIResponse) (day : Nat) (now : Nat) : Msg :=
  { training_day := day
    user_message := userMessage
    ai_reply := resp.reply
    passed := resp.pass_
    score := resp.score
    reason := resp.reason
    created_at := now }

/-! ## Grading oracle (ai_service.py) -/

/-- An aborted turn: the network or API call raised, or the parsed verdict
failed schema validation and the exception escaped. -/
inductive ProcError where
  | oracle : ProcError
  | parseCrash : ProcError
deriving DecidableEq

/-- AIService.generate_response. The day data lookup inside the AI service
uses the static catalog directly (get_day_data of days_data.py), not the
database-backed lookup of the engine. The language model call is the llm
argument: the raw completion text, or a network failure. The history and
prompt inputs influence only the model text, so they are parameters with no
further effect here. -/
def generateResponse (staticDay : Option DayData) (persona : String)
    (userMessage : String) (roundCount : Nat) (history : List ChatMsg)
    (llm : Except Unit String) : Except ProcError AIResponse :=
  match staticDay with
  | none =>
    .ok { reply := "課程資料不存在", is_final := true, pass_ := false, score := 0, reason := "無效的訓練天數" }
  | some dd =>
    if dd.type = some "teaching" then
      .ok { reply := dd.teaching_content.getD "", is_final := true, pass_ := true, score := 100, reason := "教學內容已完成" }
    else
      match llm with
      | .error _ => .error .oracle
      | .ok raw =>
        match parseResponse raw with
        | some r => .ok r
        | none => .error .parseCrash

/-! ## The progression engine (TrainingService.process_training) -/

/-- The terminal reply for a trainee with no active training and a zero
current day. -/
def notEnrolledResult (userMessage : String) : TrainingResult :=
  { user_message := userMessage
    ai_response := { reply := "您好！您目前尚未開始訓練，請等待管理員為您安排訓練課程。", is_final := true, pass_ := false, score := 0, reason := "尚未開始訓練" }
    current_day := 0
    next_day := 0
    is_completed := false
    round_count := 0 }

/-- The completion reply emitted when the effective day has no entry in the
catalog. -/
def courseMissResponse : AIResponse :=
  { reply := "恭喜你！你已經完成了所有訓練課程！", is_final := true, pass_ := true, score := 100, reason := "訓練已完成" }

/-- The synthesized verdict of the teaching branch of process_training. -/
def teachingResponse : AIResponse :=
  { reply := "好的，我了解了！", is_final := true, pass_ := true, score := 100, reason := "Day 0 教學完成" }

/-- TrainingService.process_training. The pair carries the state as left by
the call (mutations already committed when an exception aborts the turn)
and either the returned TrainingResult or the escaped exception. All reads
of day, round, persona and version happen against the entry state, as the
Python locals do. -/
def processTraining (cat : Catalog) (st : EngineState) (userMessage : String)
    (now : Nat) (llm : Except Unit String) :
    EngineState × Except ProcError TrainingResult :=
  let u := st.user
  let fa := findActive u.trainings
  let idx := fa.map (fun p => p.1)
  if fa = none ∧ u.current_day = 0 then
    (st, .ok (notEnrolledResult userMessage))
  else
    match getCourseData cat (courseVersion u) (testingDay u) with
    | none =>
      ({ st with user := completeU u idx now },
        .ok { user_message := userMessage
              ai_response := courseMissResponse
              current_day := trainingDay u
              next_day := trainingDay u
              is_completed := true
              round_count := trainingRound u })
    | some dayData =>
      if dayData.type = some "teaching" then
        let st1 : EngineState :=
          { st with messages := st.messages ++ [mkMsg userMessage teachingResponse (testingDay u) now] }
        if isManualTest u then
          ({ st1 with user := clearTestingU (setRoundU u idx 0) idx },
            .ok { user_message := userMessage
                  ai_response := teachingResponse
                  current_day := trainingDay u
                  next_day := trainingDay u
                  is_completed := false
                  round_count := 0 })
        else
          ({ st1 with user := clearTestingU (setRoundU (setDayU u idx (trainingDay u + 1)) idx 0) idx },
            .ok { user_message := userMessage
                  ai_response := teachingResponse
                  current_day := trainingDay u
                  next_day := trainingDay u + 1
                  is_completed := false
                  round_count := 0 })
      else
        match generateResponse (cat.staticDays (testingDay u)) (personaLetter u)
            userMessage (trainingRound u + 1) (getConversationHistory st) llm with
        | .error e => (st, .error e)
        | .ok resp =>
          let st1 : EngineState :=
            { st with messages := st.messages ++ [mkMsg userMessage resp (testingDay u) now] }
          let u1 := setRoundU u idx (trainingRound u + 1)
          let outcome : UserRec × Nat × Bool :=
            if resp.is_final then
              if resp.pass_ then
                if isManualTest u then
                  (clearTestingU (setRoundU u1 idx 0) idx, trainingDay u, false)
                else if trainingDay u < MAX_TRAINING_DAY then
                  (clearTestingU (setRoundU (setDayU u1 idx (trainingDay u + 1)) idx 0) idx,
                    trainingDay u + 1, false)
                else
                  (completeU (clearTestingU u1 idx) idx now, trainingDay u, true)
              else
                (setRoundU u1 idx 0, trainingDay u, false)
            else
              (u1, trainingDay u, false)
          ({ st1 with user := outcome.1 },
            .ok { user_message := userMessage
                  ai_response := resp
                  current_day := trainingDay u
                  next_day := outcome.2.1
                  is_completed := outcome.2.2
                  round_count := trainingRound u + 1 })

/-! ## Progress summary (TrainingService.get_progress_summary) -/

/-- The summary dict, without the floating-point progress_percent field
(float rounding is not modeled; no claim inspects it). -/
structure ProgressSummary where
  current_day : Nat
  current_round : Nat
  total_days : Nat
  current_title : String
  persona : Option String
  is_completed : Bool
  training_status : String
  batch_name : Option String
deriving DecidableEq

/-- TrainingService.get_progress_summary. -/
def getProgressSummary (cat : Catalog) (st : EngineState) : ProgressSummary :=
  let u := st.user
  let active := findActive u.trainings
  { current_day := trainingDay u
    current_round := trainingRound u
    total_days := MAX_TRAINING_DAY + 1
    current_title :=
      match getCourseData cat (courseVersion u) (trainingDay u) with
      | some d => d.title
      | none => "已完成所有訓練"
    persona := trainingPersona u
    is_completed := decide (trainingDay u > MAX_TRAINING_DAY)
    training_status :=
      match active with
      | some p => p.2.status
      | none => "none"
    batch_name :=
      match active with
      | some p =>
        match p.2.batch with
        | some b => some b.name
        | none => none
      | none => none }

/-! ## List and accessor lemmas -/

theorem updAt_updAt (ts : List Training) (i : Nat) (f g : Training → Training) :
    updAt (updAt ts i f) i g = updAt ts i (fun t => g (f t)) := by
  induction ts generalizing i with
  | nil => rfl
  | cons a ts ih =>
    cases i with
    | zero => rfl
    | succ n => simp [updAt, ih]

theorem findActive_cons_active {t : Training} (ts : List Training)
    (h : t.status = "active") : findActive (t :: ts) = some (0, t) := by
  simp [findActive, h]

theorem findActive_cons_inactive {t : Training} (ts : List Training)
    (h : ¬ t.status = "active") :
    findActive (t :: ts) = (findActive ts).map (fun p => (p.1 + 1, p.2)) := by
  simp [findActive, h]

theorem findActive_status {ts : List Training} {i : Nat} {t : Training}
    (h : findActive ts = some (i, t)) : t.status = "active" := by
  induction ts generalizing i with
  | nil => simp [findActive] at h
  | cons a ts ih =>
    by_cases ha : a.status = "active"
    · rw [findActive_cons_active ts ha] at h
      cases h
      exact ha
    · rw [findActive_cons_inactive ts ha] at h
      cases hfa : findActive ts with
      | none => rw [hfa] at h; cases h
      | some p =>
        rw [hfa] at h
        cases h
        exact ih hfa

theorem findActive_updAt {ts : List Training} {i : Nat} {t : Training}
    (h : findActive ts = some (i, t)) (f : Training → Training)
    (hf : (f t).status = "active") :
    findActive (updAt ts i f) = some (i, f t) := by
  induction ts generalizing i with
  | nil => simp [findActive] at h
  | cons a ts ih =>
    by_cases ha : a.status = "active"
    · rw [findActive_cons_active ts ha] at h
      cases h
      simpa [updAt] using findActive_cons_active ts hf
    · rw [findActive_cons_inactive ts ha] at h
      cases hfa : findActive ts with
      | none => rw [hfa] at h; cases h
      | some p =>
        rw [hfa] at h
        cases h
        rw [show updAt (a :: ts) (p.1 + 1) f = a :: updAt ts p.1 f from rfl,
          findActive_cons_inactive _ ha, ih hfa]
        rfl

theorem findActive_getElem {ts : List Training} {i : Nat} {t : Training}
    (h : findActive ts = some (i, t)) (f : Training → Training) :
    (updAt ts i f)[i]? = some (f t) := by
  induction ts generalizing i with
  | nil => simp [findActive] at h
  | cons a ts ih =>
    by_cases ha : a.status = "active"
    · rw [findActive_cons_active ts ha] at h
      cases h
      simp [updAt]
    · rw [findActive_cons_inactive ts ha] at h
      cases hfa : findActive ts with
      | none => rw [hfa] at h; cases h
      | some p =>
        rw [hfa] at h
        cases h
        simpa [updAt] using ih hfa

theorem forall2_updAt {R : Training → Training → Prop} {ts : List Training}
    {i : Nat} {t : Training} {f : Training → Training}
    (h : findActive ts = some (i, t)) (hrefl : ∀ a, R a a) (hft : R t (f t)) :
    List.Forall₂ R ts (updAt ts i f) := by
  induction ts generalizing i with
  | nil => simp [findActive] at h
  | cons a ts ih =>
    by_cases ha : a.status = "active"
    · rw [findActive_cons_active ts ha] at h
      cases h
      exact List.Forall₂.cons hft (List.forall₂_same.mpr (fun x _ => hrefl x))
    · rw [findActive_cons_inactive ts ha] at h
      cases hfa : findActive ts with
      | none => rw [hfa] at h; cases h
      | some p =>
        rw [hfa] at h
        cases h
        exact List.Forall₂.cons (hrefl a) (ih hfa)

theorem forall2_refl {R : Training → Training → Prop} (ts : List Training)
    (hrefl : ∀ a, R a a) : List.Forall₂ R ts ts :=
  List.forall₂_same.mpr (fun x _ => hrefl x)

/-! ## Concrete fixtures for witnesses and counterexamples -/

/-- A catalog with the static shape of days_data.py: day 0 teaching and
days 1 to 14 exam scenarios, nothing beyond, and an empty courses table. -/
def examCatalog : Catalog :=
  { dbCourse := fun _ _ => none
    staticDays := fun d =>
      if d = 0 then some { day := 0, title := "新人入門說明", type := some "teaching", teaching_content := some "內容" }
      else if d ≤ 14 then some { day := d, title := "考核", type := some "exam", teaching_content := none }
      else none }

/-- A catalog whose every configured day is a teaching scenario. -/
def teachCatalog : Catalog :=
  { dbCourse := fun _ _ => none
    staticDays := fun d =>
      if d ≤ 14 then some { day := d, title := "教學", type := some "teaching", teaching_content := some "內容" } else none }

/-- A raw oracle completion carrying a final passing verdict, as in
Scenario A of the spec. -/
def passVerdictText : String :=
  "\x7b\"reply\":\"ok\",\"is_final\":true,\"pass\":true,\"score\":80,\"reason\":\"fine\"\x7d"

/-- A raw oracle completion carrying a final failing verdict. -/
def failVerdictText : String :=
  "\x7b\"reply\":\"no\",\"is_final\":true,\"pass\":false,\"score\":10,\"reason\":\"bad\"\x7d"

/-- An active training row at the given day and round, with an optional day
under test. -/
def activeTraining (d r : Nat) (td : Option Nat) : Training :=
  { current_day := d
    current_round := r
    status := "active"
    persona := some "A_無經驗"
    batch := none
    testing_day := td
    attempt_started_at := some 100
    completed_at := none }

/-- A state holding one active training and an empty conversation log. -/
def stateAt (d r : Nat) (td : Option Nat) : EngineState :=
  { user := { current_day := 0, current_round := none, persona := none, trainings := [activeTraining d r td] }
    messages := [] }

/-! ## C9: never-enrolled trainees -/

/-- C9: a trainee with no active training and current day 0 receives the
terminal not-yet-enrolled reply and the engine performs no state mutation:
the state, conversation log included, is returned untouched. Conversely any
trainee with an active training, a day-0 trainee in progress included,
never receives the not-enrolled result. -/
theorem notEnrolled_no_mutation :
    (∀ (cat : Catalog) (st : EngineState) (msg : String) (now : Nat) (llm : Except Unit String),
      findActive st.user.trainings = none → st.user.current_day = 0 →
      processTraining cat st msg now llm = (st, .ok (notEnrolledResult msg))) ∧
    (∀ (cat : Catalog) (st : EngineState) (msg : String) (now : Nat) (llm : Except Unit String)
      (p : Nat × Training) (res : TrainingResult),
      findActive st.user.trainings = some p →
      (processTraining cat st msg now llm).2 = Except.ok res →
      res ≠ notEnrolledResult msg) := by
  constructor
  · intro cat st msg now llm hfa hday
    simp [processTraining, hfa, hday]
  · intro cat st msg now llm p res hfa hok hcontra
    simp only [processTraining, hfa] at hok
    norm_num at hok
    cases hcd : getCourseData cat (courseVersion st.user) (testingDay st.user) with
    | none =>
      rw [hcd] at hok
      simp at hok
      rw [← hok] at hcontra
      have := congrArg TrainingResult.ai_response hcontra
      simp [courseMissResponse, notEnrolledResult] at this
    | some dd =>
      rw [hcd] at hok
      by_cases hty : dd.type = some "teaching"
      · simp [hty] at hok
        by_cases hman : isManualTest st.user
        · simp [hman] at hok
          rw [← hok] at hcontra
          have := congrArg TrainingResult.ai_response hcontra
          simp [teachingResponse, notEnrolledResult] at this
        · simp [hman] at hok
          rw [← hok] at hcontra
          have := congrArg TrainingResult.ai_response hcontra
          simp [teachingResponse, notEnrolledResult] at this
      · simp [hty] at hok
        cases hgen : generateResponse (cat.staticDays (testingDay st.user)) (personaLetter st.user)
            msg (trainingRound st.user + 1) (getConversationHistory st) llm with
        | error e => rw [hgen] at hok; simp at hok
        | ok resp =>
          rw [hgen] at hok
          simp at hok
          rw [← hok] at hcontra
          have := congrArg TrainingResult.round_count hcontra
          simp [notEnrolledResult] at this

/-- A trainee with a pending (not active) training, day 0, and a stale
round counter in the legacy column. -/
def pendingState : EngineState :=
  { user :=
      { current_day := 0
        current_round := some 7
        persona := none
        trainings := [{ activeTraining 3 1 none with status := "pending" }] }
    messages := [] }

/-- Closed instance of the never-enrolled theorem: the pending trainee gets
the terminal reply with no mutation, and a day-0 trainee with an active
training gets the teaching result instead of the not-enrolled reply. -/
theorem notEnrolled_no_mutation_witness :
    processTraining examCatalog pendingState "hi" 5 (Except.ok "x") =
      (pendingState, Except.ok (notEnrolledResult "hi")) ∧
    ({ user_message := "hi", ai_response := teachingResponse, current_day := 0,
       next_day := 1, is_completed := false, round_count := 0 } : TrainingResult) ≠
      notEnrolledResult "hi" :=
  ⟨notEnrolled_no_mutation.1 examCatalog pendingState "hi" 5 (Except.ok "x") rfl rfl,
    notEnrolled_no_mutation.2 examCatalog (stateAt 0 0 none) "hi" 5 (Except.ok "x")
      (0, activeTraining 0 0 none) _ rfl rfl⟩

/-! ## C8: oracle failure leaves the state untouched -/

/-- C8: whenever processing a message aborts with an exception (the oracle
network call raised, or the parsed verdict crashed validation), the state
is exactly the entry state: no turn is logged, no round incremented, no
day, day-under-test or persona changed. Moreover with a throwing oracle
either the failure propagates to the caller, or the branch taken never
consults the oracle at all (its outcome is the same for every oracle),
so no retry or fallback verdict exists. -/
theorem oracleFailure_frame :
    (∀ (cat : Catalog) (st : EngineState) (msg : String) (now : Nat)
      (llm : Except Unit String) (e : ProcError),
      (processTraining cat st msg now llm).2 = Except.error e →
      (processTraining cat st msg now llm).1 = st) ∧
    (∀ (cat : Catalog) (st : EngineState) (msg : String) (now : Nat),
      (processTraining cat st msg now (Except.error ())).2 = Except.error ProcError.oracle ∨
      (∀ llm, processTraining cat st msg now llm = processTraining cat st msg now (Except.error ()))) := by
  constructor
  · intro cat st msg now llm e
    simp only [processTraining]
    repeat' split
    all_goals intro hok
    all_goals first
      | rfl
      | simp at hok
  · intro cat st msg now
    by_cases hne : findActive st.user.trainings = none ∧ st.user.current_day = 0
    · right
      intro llm
      simp [processTraining, hne.1, hne.2]
    · cases hcd : getCourseData cat (courseVersion st.user) (testingDay st.user) with
      | none =>
        right
        intro llm
        simp [processTraining, if_neg hne, hcd]
      | some dd =>
        by_cases hty : dd.type = some "teaching"
        · right
          intro llm
          simp [processTraining, if_neg hne, hcd, hty]
        · cases hst : cat.staticDays (testingDay st.user) with
          | none =>
            right
            intro llm
            simp [processTraining, if_neg hne, hcd, hty, generateResponse, hst]
          | some sd =>
            by_cases hsty : sd.type = some "teaching"
            · right
              intro llm
              simp [processTraining, if_neg hne, hcd, hty, generateResponse, hst, hsty]
            · left
              simp [processTraining, if_neg hne, hcd, hty, generateResponse, hst, hsty]

/-- Closed instance of the oracle-failure theorem: with an assessment day
and a throwing oracle the state at day 3 round 1 is returned untouched and
the failure propagates. -/
theorem oracleFailure_frame_witness :
    (processTraining examCatalog (stateAt 3 1 none) "hi" 5 (Except.error ())).1 = stateAt 3 1 none ∧
    (processTraining examCatalog (stateAt 3 1 none) "hi" 5 (Except.error ())).2 =
      Except.error ProcError.oracle :=
  ⟨oracleFailure_frame.1 examCatalog (stateAt 3 1 none) "hi" 5 (Except.error ()) ProcError.oracle rfl,
    rfl⟩

/-! ## C5: effective day absent from the catalog -/

/-- C5 counterexample: a manual test aimed at day 99, absent from the
catalog, still marks the active training completed, and neither clears the
day under test nor resets the round, refuting the claim that completion is
recorded only for non-manual exchanges. -/
theorem courseMiss_manual_completion_counterexample :
    isManualTest (stateAt 5 2 (some 99)).user = true ∧
    (processTraining examCatalog (stateAt 5 2 (some 99)) "hi" 7 (Except.ok "x")).1.user.trainings =
      [{ activeTraining 5 2 (some 99) with status := "completed", completed_at := some 7 }] := by
  constructor
  · rfl
  · rfl

/-- C5 amended: when the effective day has no catalog entry (and the
trainee is not in the never-enrolled case), the engine emits the completion
verdict with isFinal and passed set, logs no turn, never consults the
oracle, and marks the active training completed whenever one exists — even
when the exchange is a manual test. -/
theorem courseMiss_completion :
    ∀ (cat : Catalog) (st : EngineState) (msg : String) (now : Nat) (llm : Except Unit String),
      ¬(findActive st.user.trainings = none ∧ st.user.current_day = 0) →
      getCourseData cat (courseVersion st.user) (testingDay st.user) = none →
      (processTraining cat st msg now llm).2 =
        Except.ok { user_message := msg
                    ai_response := courseMissResponse
                    current_day := trainingDay st.user
                    next_day := trainingDay st.user
                    is_completed := true
                    round_count := trainingRound st.user } ∧
      (processTraining cat st msg now llm).1.messages = st.messages ∧
      (∀ llm2, processTraining cat st msg now llm2 = processTraining cat st msg now llm) ∧
      (∀ i t, findActive st.user.trainings = some (i, t) →
        (processTraining cat st msg now llm).1.user.trainings[i]? =
          some { t with status := "completed", completed_at := some now }) := by
  intro cat st msg now llm hne hcd
  refine ⟨?_, ?_, ?_, ?_⟩
  · simp [processTraining, if_neg hne, hcd]
  · simp [processTraining, if_neg hne, hcd]
  · intro llm2
    simp [processTraining, if_neg hne, hcd]
  · intro i t hfa
    simp [processTraining, if_neg hne, hcd, completeU, hfa]
    exact findActive_getElem hfa _

/-- Closed instance of the amended catalog-miss theorem at day 99 under
manual test. -/
theorem courseMiss_completion_witness :
    (processTraining examCatalog (stateAt 5 2 (some 99)) "hi" 7 (Except.ok "x")).2 =
      Except.ok { user_message := "hi"
                  ai_response := courseMissResponse
                  current_day := 5
                  next_day := 5
                  is_completed := true
                  round_count := 2 } ∧
    (processTraining examCatalog (stateAt 5 2 (some 99)) "hi" 7 (Except.ok "x")).1.user.trainings[0]? =
      some { activeTraining 5 2 (some 99) with status := "completed", completed_at := some 7 } := by
  have h := courseMiss_completion examCatalog (stateAt 5 2 (some 99)) "hi" 7 (Except.ok "x")
    (by decide) rfl
  exact ⟨h.1, h.2.2.2 0 (activeTraining 5 2 (some 99)) rfl⟩

/-! ## C6: teaching scenarios -/

/-- C6 counterexample: with a teaching scenario configured at day 14, a
non-manual exchange advances the trainee to day 15 — past the maximum day —
leaves the training active rather than completed, and reports the result
as not completed. -/
theorem teaching_maxday_counterexample :
    (processTraining teachCatalog (stateAt 14 0 none) "hi" 7 (Except.ok "x")).1.user.trainings =
      [{ activeTraining 14 0 none with current_day := 15, current_round := 0 }] ∧
    ((processTraining teachCatalog (stateAt 14 0 none) "hi" 7 (Except.ok "x")).2.map
      (fun r => (r.next_day, r.is_completed))) = Except.ok (15, false) := by
  exact ⟨rfl, rfl⟩

/-- Accessor values after a functional update of the active training that
keeps it active. -/
theorem accessors_after_upd {u : UserRec} {i : Nat} {t : Training}
    (hfa : findActive u.trainings = some (i, t)) (F : Training → Training)
    (hFstat : (F t).status = "active") :
    trainingDay { u with trainings := updAt u.trainings i F } = (F t).current_day ∧
    trainingRound { u with trainings := updAt u.trainings i F } = (F t).current_round ∧
    activeTestingDay { u with trainings := updAt u.trainings i F } = (F t).testing_day := by
  have h := findActive_updAt hfa F hFstat
  exact ⟨by simp [trainingDay, h], by simp [trainingRound, h], by simp [activeTestingDay, h]⟩

/-- C6 amended: a teaching scenario never consults the oracle; the engine
synthesizes the fixed always-pass verdict, logs the turn, resets the round
and clears the day under test. A non-manual teaching exchange always
advances the current day by one — even past the maximum day — and never
marks the training completed; a manual one leaves the current day
untouched. -/
theorem teaching_always_pass :
    ∀ (cat : Catalog) (st : EngineState) (msg : String) (now : Nat) (llm : Except Unit String)
      (dd : DayData),
      ¬(findActive st.user.trainings = none ∧ st.user.current_day = 0) →
      getCourseData cat (courseVersion st.user) (testingDay st.user) = some dd →
      dd.type = some "teaching" →
      (processTraining cat st msg now llm).2 =
        Except.ok { user_message := msg
                    ai_response := teachingResponse
                    current_day := trainingDay st.user
                    next_day := if isManualTest st.user then trainingDay st.user else trainingDay st.user + 1
                    is_completed := false
                    round_count := 0 } ∧
      (processTraining cat st msg now llm).1.messages =
        st.messages ++ [mkMsg msg teachingResponse (testingDay st.user) now] ∧
      (∀ llm2, processTraining cat st msg now llm2 = processTraining cat st msg now llm) ∧
      trainingDay (processTraining cat st msg now llm).1.user =
        (if isManualTest st.user then trainingDay st.user else trainingDay st.user + 1) ∧
      trainingRound (processTraining cat st msg now llm).1.user = 0 ∧
      activeTestingDay (processTraining cat st msg now llm).1.user = none ∧
      List.Forall₂ (fun a b => b.status = a.status)
        st.user.trainings (processTraining cat st msg now llm).1.user.trainings := by
  intro cat st msg now llm dd hne hcd hty
  have hind : ∀ llm2, processTraining cat st msg now llm2 = processTraining cat st msg now llm := by
    intro llm2
    simp [processTraining, if_neg hne, hcd, hty]
  cases hfa : findActive st.user.trainings with
  | none =>
    have hman : isManualTest st.user = false := by simp [isManualTest, hfa]
    have hday : ¬ st.user.current_day = 0 := fun h => hne ⟨hfa, h⟩
    refine ⟨?_, ?_, hind, ?_, ?_, ?_, ?_⟩
    · simp [processTraining, hcd, hty, hman, hfa, hday]
    · simp [processTraining, hcd, hty, hman, hfa, hday]
    · simp [processTraining, hcd, hty, hman, hfa, hday, setDayU, setRoundU,
        clearTestingU, trainingDay]
    · simp [processTraining, hcd, hty, hman, hfa, hday, setDayU, setRoundU,
        clearTestingU, trainingRound]
    · simp [processTraining, hcd, hty, hman, hfa, hday, setDayU, setRoundU,
        clearTestingU, activeTestingDay]
    · simp only [processTraining, hcd, hty]
      simp [hman, hfa, hday, setDayU, setRoundU, clearTestingU]
  | some p =>
    obtain ⟨i, t⟩ := p
    have hact : t.status = "active" := findActive_status hfa
    by_cases hman : isManualTest st.user
    · have hPT : processTraining cat st msg now llm =
          ({ user := clearTestingU (setRoundU st.user (some i) 0) (some i)
             messages := st.messages ++ [mkMsg msg teachingResponse (testingDay st.user) now] },
           Except.ok { user_message := msg
                       ai_response := teachingResponse
                       current_day := trainingDay st.user
                       next_day := trainingDay st.user
                       is_completed := false
                       round_count := 0 }) := by
        simp [processTraining, if_neg hne, hcd, hty, hman, hfa]
      have hcomp : clearTestingU (setRoundU st.user (some i) 0) (some i) =
          { st.user with trainings := updAt st.user.trainings i (fun a => { a with current_round := 0, testing_day := none }) } := by
        simp [setRoundU, clearTestingU, updAt_updAt]
      have hacc := accessors_after_upd hfa
        (fun a => { a with current_round := 0, testing_day := none }) (by simpa using hact)
      refine ⟨?_, ?_, hind, ?_, ?_, ?_, ?_⟩
      · rw [hPT]
        simp [hman]
      · rw [hPT]
      · rw [hPT, if_pos hman]
        simp only [hcomp]
        rw [hacc.1]
        simp [trainingDay, hfa]
      · rw [hPT]
        simp only [hcomp]
        simpa using hacc.2.1
      · rw [hPT]
        simp only [hcomp]
        simpa using hacc.2.2
      · rw [hPT]
        simp only [hcomp]
        exact forall2_updAt hfa (fun a => rfl) rfl
    · have hman2 : isManualTest st.user = false := by simpa using hman
      have hPT : processTraining cat st msg now llm =
          ({ user := clearTestingU (setRoundU (setDayU st.user (some i) (trainingDay st.user + 1)) (some i) 0) (some i)
             messages := st.messages ++ [mkMsg msg teachingResponse (testingDay st.user) now] },
           Except.ok { user_message := msg
                       ai_response := teachingResponse
                       current_day := trainingDay st.user
                       next_day := trainingDay st.user + 1
                       is_completed := false
                       round_count := 0 }) := by
        simp [processTraining, if_neg hne, hcd, hty, hman2, hfa]
      have hcomp : clearTestingU (setRoundU (setDayU st.user (some i) (trainingDay st.user + 1)) (some i) 0) (some i) =
          { st.user with trainings := updAt st.user.trainings i (fun a => { a with current_day := trainingDay st.user + 1, current_round := 0, testing_day := none }) } := by
        simp [setDayU, setRoundU, clearTestingU, updAt_updAt]
      have hacc := accessors_after_upd hfa
        (fun a => { a with current_day := trainingDay st.user + 1, current_round := 0, testing_day := none })
        (by simpa using hact)
      refine ⟨?_, ?_, hind, ?_, ?_, ?_, ?_⟩
      · rw [hPT]
        simp [hman2]
      · rw [hPT]
      · rw [hPT, if_neg (by simp [hman2])]
        simp only [hcomp]
        simpa using hacc.1
      · rw [hPT]
        simp only [hcomp]
        simpa using hacc.2.1
      · rw [hPT]
        simp only [hcomp]
        simpa using hacc.2.2
      · rw [hPT]
        simp only [hcomp]
        exact forall2_updAt hfa (fun a => rfl) rfl

/-- Closed instance of the teaching theorem at day 14, the opening case of
the counterexample. -/
theorem teaching_always_pass_witness :
    (processTraining teachCatalog (stateAt 14 0 none) "hi" 7 (Except.ok "x")).2 =
      Except.ok { user_message := "hi"
                  ai_response := teachingResponse
                  current_day := 14
                  next_day := 15
                  is_completed := false
                  round_count := 0 } ∧
    trainingDay (processTraining teachCatalog (stateAt 14 0 none) "hi" 7 (Except.ok "x")).1.user = 15 := by
  have h := teaching_always_pass teachCatalog (stateAt 14 0 none) "hi" 7 (Except.ok "x")
    { day := 14, title := "教學", type := some "teaching", teaching_content := some "內容" }
    (by decide) rfl rfl
  exact ⟨h.1, h.2.2.2.1⟩

/-! ## C1: manual-test isolation -/

/-- C1 counterexample: a manual test whose target day is absent from the
catalog yields a final passing verdict, yet the day under test is not
cleared and the round is not reset. -/
theorem manualPass_counterexample :
    isManualTest (stateAt 5 2 (some 99)).user = true ∧
    ((processTraining examCatalog (stateAt 5 2 (some 99)) "hi" 7 (Except.ok "x")).2.map
      (fun r => (r.ai_response.is_final, r.ai_response.pass_))) = Except.ok (true, true) ∧
    ((processTraining examCatalog (stateAt 5 2 (some 99)) "hi" 7 (Except.ok "x")).1.user.trainings.map
      (fun t => (t.testing_day, t.current_round))) = [(some 99, 2)] := by
  exact ⟨rfl, rfl, rfl⟩

/-- C1 amended: when a manual test on a day present in the catalog ends in
a final passing verdict, the engine clears the day under test and resets
the round to zero; and unconditionally, a manual-test exchange never
changes any stored current day, whatever its outcome. -/
theorem manualTest_isolation :
    (∀ (cat : Catalog) (st : EngineState) (msg : String) (now : Nat) (llm : Except Unit String)
      (dd : DayData) (res : TrainingResult),
      isManualTest st.user = true →
      getCourseData cat (courseVersion st.user) (testingDay st.user) = some dd →
      (processTraining cat st msg now llm).2 = Except.ok res →
      res.ai_response.is_final = true →
      res.ai_response.pass_ = true →
      activeTestingDay (processTraining cat st msg now llm).1.user = none ∧
      trainingRound (processTraining cat st msg now llm).1.user = 0) ∧
    (∀ (cat : Catalog) (st : EngineState) (msg : String) (now : Nat) (llm : Except Unit String),
      isManualTest st.user = true →
      (processTraining cat st msg now llm).1.user.current_day = st.user.current_day ∧
      List.Forall₂ (fun a b => b.current_day = a.current_day)
        st.user.trainings (processTraining cat st msg now llm).1.user.trainings) := by
  constructor
  · intro cat st msg now llm dd res hman hcd hok hfin hpass
    obtain ⟨⟨i, t⟩, hfa⟩ : ∃ p, findActive st.user.trainings = some p := by
      cases h : findActive st.user.trainings with
      | none => simp [isManualTest, h] at hman
      | some p => exact ⟨p, rfl⟩
    have hne : ¬(findActive st.user.trainings = none ∧ st.user.current_day = 0) := by simp [hfa]
    have hact : t.status = "active" := findActive_status hfa
    by_cases hty : dd.type = some "teaching"
    · have hPT : processTraining cat st msg now llm =
          ({ user := clearTestingU (setRoundU st.user (some i) 0) (some i)
             messages := st.messages ++ [mkMsg msg teachingResponse (testingDay st.user) now] },
           Except.ok { user_message := msg
                       ai_response := teachingResponse
                       current_day := trainingDay st.user
                       next_day := trainingDay st.user
                       is_completed := false
                       round_count := 0 }) := by
        simp [processTraining, if_neg hne, hcd, hty, hman, hfa]
      have hcomp : clearTestingU (setRoundU st.user (some i) 0) (some i) =
          { st.user with trainings := updAt st.user.trainings i (fun a => { a with current_round := 0, testing_day := none }) } := by
        simp [setRoundU, clearTestingU, updAt_updAt]
      have hacc := accessors_after_upd hfa
        (fun a => { a with current_round := 0, testing_day := none }) (by simpa using hact)
      rw [hPT]
      simp only [hcomp]
      exact ⟨by simpa using hacc.2.2, by simpa using hacc.2.1⟩
    · cases hgen : generateResponse (cat.staticDays (testingDay st.user)) (personaLetter st.user)
          msg (trainingRound st.user + 1) (getConversationHistory st) llm with
      | error e =>
        simp [processTraining, if_neg hne, hcd, hty, hgen] at hok
      | ok resp =>
        have hresp : res.ai_response = resp := by
          simp [processTraining, if_neg hne, hcd, hty, hgen] at hok
          rw [← hok]
        rw [hresp] at hfin hpass
        have hPT : processTraining cat st msg now llm =
            ({ user := clearTestingU (setRoundU (setRoundU st.user (some i) (trainingRound st.user + 1)) (some i) 0) (some i)
               messages := st.messages ++ [mkMsg msg resp (testingDay st.user) now] },
             Except.ok { user_message := msg
                         ai_response := resp
                         current_day := trainingDay st.user
                         next_day := trainingDay st.user
                         is_completed := false
                         round_count := trainingRound st.user + 1 }) := by
          simp [processTraining, if_neg hne, hcd, hty, hgen, hfin, hpass, hman, hfa]
        have hcomp : clearTestingU (setRoundU (setRoundU st.user (some i) (trainingRound st.user + 1)) (some i) 0) (some i) =
            { st.user with trainings := updAt st.user.trainings i (fun a => { a with current_round := 0, testing_day := none }) } := by
          simp [setRoundU, clearTestingU, updAt_updAt]
        have hacc := accessors_after_upd hfa
          (fun a => { a with current_round := 0, testing_day := none }) (by simpa using hact)
        rw [hPT]
        simp only [hcomp]
        exact ⟨by simpa using hacc.2.2, by simpa using hacc.2.1⟩
  · intro cat st msg now llm hman
    obtain ⟨⟨i, t⟩, hfa⟩ : ∃ p, findActive st.user.trainings = some p := by
      cases h : findActive st.user.trainings with
      | none => simp [isManualTest, h] at hman
      | some p => exact ⟨p, rfl⟩
    have hne : ¬(findActive st.user.trainings = none ∧ st.user.current_day = 0) := by simp [hfa]
    constructor
    · simp only [processTraining, if_neg hne]
      repeat' split
      all_goals first
        | contradiction
        | simp [completeU, setDayU, setRoundU, clearTestingU, hfa]
    · simp only [processTraining, if_neg hne]
      repeat' split
      all_goals first
        | contradiction
        | simp [hfa, completeU, setDayU, setRoundU, clearTestingU, updAt_updAt]
      all_goals exact forall2_updAt hfa (fun a => rfl) rfl

/-- Closed instance of the manual-test isolation theorem: Scenario C of the
spec, a trainee at day 5 passing a manual test of day 2. -/
theorem manualTest_isolation_witness :
    activeTestingDay (processTraining examCatalog (stateAt 5 1 (some 2)) "hi" 7 (Except.ok passVerdictText)).1.user = none ∧
    trainingRound (processTraining examCatalog (stateAt 5 1 (some 2)) "hi" 7 (Except.ok passVerdictText)).1.user = 0 ∧
    (processTraining examCatalog (stateAt 5 1 (some 2)) "hi" 7 (Except.ok passVerdictText)).1.user.current_day = 0 := by
  have h1 := manualTest_isolation.1 examCatalog (stateAt 5 1 (some 2)) "hi" 7 (Except.ok passVerdictText)
    { day := 2, title := "考核", type := some "exam", teaching_content := none }
    { user_message := "hi"
      ai_response := { reply := "ok", is_final := true, pass_ := true, score := 80, reason := "fine" }
      current_day := 5
      next_day := 5
      is_completed := false
      round_count := 2 }
    rfl rfl rfl rfl rfl
  have h2 := manualTest_isolation.2 examCatalog (stateAt 5 1 (some 2)) "hi" 7 (Except.ok passVerdictText) rfl
  exact ⟨h1.1, h1.2, h2.1⟩

/-! ## C2: round reset after a final verdict -/

/-- C2 counterexample: a final passing verdict on the maximum day completes
training but leaves the stored round at its incremented value of 2 rather
than resetting it to 0. -/
theorem finalVerdict_round_counterexample :
    ((processTraining examCatalog (stateAt 14 1 none) "hi" 7 (Except.ok passVerdictText)).2.map
      (fun r => (r.ai_response.is_final, r.ai_response.pass_, r.is_completed))) =
      Except.ok (true, true, true) ∧
    ((processTraining examCatalog (stateAt 14 1 none) "hi" 7 (Except.ok passVerdictText)).1.user.trainings.map
      (fun t => t.current_round)) = [2] := by
  exact ⟨rfl, rfl⟩

/-- C2 amended: after a final verdict on a processed exchange whose
effective day is in the catalog, the stored round is reset to 0 — except
for the completing pass (a pass with no manual test in effect at a current
day at or beyond the maximum), which leaves the incremented round count in
place. -/
theorem finalVerdict_resets_round :
    ∀ (cat : Catalog) (st : EngineState) (msg : String) (now : Nat) (llm : Except Unit String)
      (dd : DayData) (res : TrainingResult),
      ¬(findActive st.user.trainings = none ∧ st.user.current_day = 0) →
      getCourseData cat (courseVersion st.user) (testingDay st.user) = some dd →
      (processTraining cat st msg now llm).2 = Except.ok res →
      res.ai_response.is_final = true →
      ¬(res.ai_response.pass_ = true ∧ isManualTest st.user = false ∧ MAX_TRAINING_DAY ≤ trainingDay st.user) →
      trainingRound (processTraining cat st msg now llm).1.user = 0 := by
  intro cat st msg now llm dd res hne hcd hok hfin hnc
  cases hfa : findActive st.user.trainings with
  | none =>
    have hman : isManualTest st.user = false := by simp [isManualTest, hfa]
    have hday : ¬ st.user.current_day = 0 := fun h => hne ⟨hfa, h⟩
    by_cases hty : dd.type = some "teaching"
    · simp [processTraining, hcd, hty, hman, hfa, hday, setDayU, setRoundU,
        clearTestingU, trainingRound]
    · cases hgen : generateResponse (cat.staticDays (testingDay st.user)) (personaLetter st.user)
          msg (trainingRound st.user + 1) (getConversationHistory st) llm with
      | error e =>
        simp [processTraining, hcd, hty, hgen, hfa, hday] at hok
      | ok resp =>
        have hresp : res.ai_response = resp := by
          simp [processTraining, hcd, hty, hgen, hfa, hday] at hok
          rw [← hok]
        have hgen2 : generateResponse (cat.staticDays (testingDay st.user)) (personaLetter st.user)
            msg (st.user.current_round.getD 0 + 1) (getConversationHistory st) llm = Except.ok resp := by
          simpa [trainingRound, hfa] using hgen
        rw [hresp] at hfin hnc
        by_cases hp : resp.pass_ = true
        · have hlt : trainingDay st.user < MAX_TRAINING_DAY := by
            by_contra hge
            exact hnc ⟨hp, hman, Nat.le_of_not_lt hge⟩
          simp [processTraining, hcd, hty, hgen, hgen2, hfa, hday, hfin, hp, hman, hlt,
            setDayU, setRoundU, clearTestingU, trainingRound]
        · have hp2 : resp.pass_ = false := by simpa using hp
          simp [processTraining, hcd, hty, hgen, hgen2, hfa, hday, hfin, hp2,
            setRoundU, trainingRound]
  | some p =>
    obtain ⟨i, t⟩ := p
    have hact : t.status = "active" := findActive_status hfa
    by_cases hty : dd.type = some "teaching"
    · by_cases hman : isManualTest st.user
      · have hcomp : clearTestingU (setRoundU st.user (some i) 0) (some i) =
            { st.user with trainings := updAt st.user.trainings i (fun a => { a with current_round := 0, testing_day := none }) } := by
          simp [setRoundU, clearTestingU, updAt_updAt]
        have hacc := accessors_after_upd hfa
          (fun a => { a with current_round := 0, testing_day := none }) (by simpa using hact)
        simp only [processTraining, if_neg hne, hcd, hty, hfa]
        simp only [Option.map, if_pos hman]
        simp only [hcomp]
        simpa using hacc.2.1
      · have hman2 : isManualTest st.user = false := by simpa using hman
        have hcomp : clearTestingU (setRoundU (setDayU st.user (some i) (trainingDay st.user + 1)) (some i) 0) (some i) =
            { st.user with trainings := updAt st.user.trainings i (fun a => { a with current_day := trainingDay st.user + 1, current_round := 0, testing_day := none }) } := by
          simp [setDayU, setRoundU, clearTestingU, updAt_updAt]
        have hacc := accessors_after_upd hfa
          (fun a => { a with current_day := trainingDay st.user + 1, current_round := 0, testing_day := none })
          (by simpa using hact)
        simp only [processTraining, if_neg hne, hcd, hty, hfa]
        simp only [Option.map, hman2, if_neg (by simp : ¬ (false = true))]
        simp only [hcomp]
        simpa using hacc.2.1
    · cases hgen : generateResponse (cat.staticDays (testingDay st.user)) (personaLetter st.user)
          msg (trainingRound st.user + 1) (getConversationHistory st) llm with
      | error e =>
        simp [processTraining, if_neg hne, hcd, hty, hgen] at hok
      | ok resp =>
        have hresp : res.ai_response = resp := by
          simp [processTraining, if_neg hne, hcd, hty, hgen] at hok
          rw [← hok]
        rw [hresp] at hfin hnc
        by_cases hp : resp.pass_ = true
        · by_cases hman : isManualTest st.user
          · have hcomp : clearTestingU (setRoundU (setRoundU st.user (some i) (trainingRound st.user + 1)) (some i) 0) (some i) =
                { st.user with trainings := updAt st.user.trainings i (fun a => { a with current_round := 0, testing_day := none }) } := by
              simp [setRoundU, clearTestingU, updAt_updAt]
            have hacc := accessors_after_upd hfa
              (fun a => { a with current_round := 0, testing_day := none }) (by simpa using hact)
            simp only [processTraining, if_neg hne, hcd, hty, hgen, hfa]
            simp only [Option.map, hfin, hp, if_pos hman, if_true]
            simp only [hcomp]
            simpa using hacc.2.1
          · have hman2 : isManualTest st.user = false := by simpa using hman
            have hlt : trainingDay st.user < MAX_TRAINING_DAY := by
              by_contra hge
              exact hnc ⟨hp, hman2, Nat.le_of_not_lt hge⟩
            have hcomp : clearTestingU (setRoundU (setDayU (setRoundU st.user (some i) (trainingRound st.user + 1)) (some i) (trainingDay st.user + 1)) (some i) 0) (some i) =
                { st.user with trainings := updAt st.user.trainings i (fun a => { a with current_day := trainingDay st.user + 1, current_round := 0, testing_day := none }) } := by
              simp [setDayU, setRoundU, clearTestingU, updAt_updAt]
            have hacc := accessors_after_upd hfa
              (fun a => { a with current_day := trainingDay st.user + 1, current_round := 0, testing_day := none })
              (by simpa using hact)
            simp only [processTraining, if_neg hne, hcd, hty, hgen, hfa]
            simp only [Option.map, hfin, hp, hman2, if_true, if_neg (by simp : ¬ (false = true)), if_pos hlt]
            simp only [hcomp]
            simpa using hacc.2.1
        · have hp2 : resp.pass_ = false := by simpa using hp
          have hcomp : setRoundU (setRoundU st.user (some i) (trainingRound st.user + 1)) (some i) 0 =
              { st.user with trainings := updAt st.user.trainings i (fun a => { a with current_round := 0 }) } := by
            simp [setRoundU, updAt_updAt]
          have hacc := accessors_after_upd hfa
            (fun a => { a with current_round := 0 }) (by simpa using hact)
          simp only [processTraining, if_neg hne, hcd, hty, hgen, hfa]
          simp only [Option.map, hfin, hp2, if_true, if_neg (by simp : ¬ (false = true))]
          simp only [hcomp]
          simpa using hacc.2.1

/-- Closed instance of the round-reset theorem: Scenario B of the spec, a
final failing verdict at day 3 resets the round to 0. -/
theorem finalVerdict_resets_round_witness :
    trainingRound (processTraining examCatalog (stateAt 3 1 none) "hi" 7 (Except.ok failVerdictText)).1.user = 0 := by
  exact finalVerdict_resets_round examCatalog (stateAt 3 1 none) "hi" 7 (Except.ok failVerdictText)
    { day := 3, title := "考核", type := some "exam", teaching_content := none }
    { user_message := "hi"
      ai_response := { reply := "no", is_final := true, pass_ := false, score := 10, reason := "bad" }
      current_day := 3
      next_day := 3
      is_completed := false
      round_count := 2 }
    (by decide) rfl rfl rfl (by decide)

/-- The current training day seen through the accessor equals the day of
the active row. -/
theorem trainingDay_eq {u : UserRec} {i : Nat} {t : Training}
    (hfa : findActive u.trainings = some (i, t)) : trainingDay u = t.current_day := by
  simp [trainingDay, hfa]

/-- Reflexive day monotonicity on an unchanged training list. -/
theorem forall2_le_refl (ts : List Training) :
    List.Forall₂ (fun a b => a.current_day ≤ b.current_day) ts ts :=
  List.forall₂_same.mpr (fun x _ => Nat.le_refl _)

/-- Day monotonicity across an update of the active row that does not
decrease its day. -/
theorem forall2_le_updAt {ts : List Training} {i : Nat} {t : Training} {F : Training → Training}
    (hfa : findActive ts = some (i, t)) (hft : t.current_day ≤ (F t).current_day) :
    List.Forall₂ (fun a b => a.current_day ≤ b.current_day) ts (updAt ts i F) :=
  forall2_updAt hfa (fun a => Nat.le_refl _) hft

/-! ## C4: single-step advance on a non-manual pass -/

/-- C4: with no manual test in effect and the current day below the
maximum, a final passing verdict on a cataloged day advances the current
day by exactly one, resets the round, clears the day under test, and
reports the new day as nextDay; and unconditionally no stored current day
ever decreases across a processed message. -/
theorem passAdvance_one_step :
    (∀ (cat : Catalog) (st : EngineState) (msg : String) (now : Nat) (llm : Except Unit String)
      (dd : DayData) (res : TrainingResult),
      isManualTest st.user = false →
      trainingDay st.user < MAX_TRAINING_DAY →
      getCourseData cat (courseVersion st.user) (testingDay st.user) = some dd →
      (processTraining cat st msg now llm).2 = Except.ok res →
      res.ai_response.is_final = true →
      res.ai_response.pass_ = true →
      trainingDay (processTraining cat st msg now llm).1.user = trainingDay st.user + 1 ∧
      trainingRound (processTraining cat st msg now llm).1.user = 0 ∧
      activeTestingDay (processTraining cat st msg now llm).1.user = none ∧
      res.next_day = trainingDay st.user + 1 ∧
      res.current_day = trainingDay st.user) ∧
    (∀ (cat : Catalog) (st : EngineState) (msg : String) (now : Nat) (llm : Except Unit String),
      st.user.current_day ≤ (processTraining cat st msg now llm).1.user.current_day ∧
      List.Forall₂ (fun a b => a.current_day ≤ b.current_day)
        st.user.trainings (processTraining cat st msg now llm).1.user.trainings) := by
  constructor
  · intro cat st msg now llm dd res hman hlt hcd hok hfin hpass
    cases hfa : findActive st.user.trainings with
    | none =>
      by_cases hday : st.user.current_day = 0
      · have : res = notEnrolledResult msg := by
          simp [processTraining, hfa, hday] at hok
          rw [← hok]
        rw [this] at hpass
        simp [notEnrolledResult] at hpass
      · by_cases hty : dd.type = some "teaching"
        · have hres : ({ user_message := msg, ai_response := teachingResponse, current_day := trainingDay st.user, next_day := trainingDay st.user + 1, is_completed := false, round_count := 0 } : TrainingResult) = res := by
            simpa [processTraining, hcd, hty, hman, hfa, hday] using hok
          refine ⟨?_, ?_, ?_, ?_, ?_⟩ <;>
            simp [processTraining, hcd, hty, hman, hfa, hday, setDayU, setRoundU,
              clearTestingU, trainingDay, trainingRound, activeTestingDay, ← hres]
        · cases hgen : generateResponse (cat.staticDays (testingDay st.user)) (personaLetter st.user)
              msg (trainingRound st.user + 1) (getConversationHistory st) llm with
          | error e =>
            simp [processTraining, hcd, hty, hgen, hfa, hday] at hok
          | ok resp =>
            have hgen2 : generateResponse (cat.staticDays (testingDay st.user)) (personaLetter st.user)
                msg (st.user.current_round.getD 0 + 1) (getConversationHistory st) llm = Except.ok resp := by
              simpa [trainingRound, hfa] using hgen
            have hresp : res.ai_response = resp := by
              simp [processTraining, hcd, hty, hgen, hfa, hday] at hok
              rw [← hok]
            rw [hresp] at hfin hpass
            have hlt2 : st.user.current_day < MAX_TRAINING_DAY := by
              simpa [trainingDay, hfa] using hlt
            have hres2 : ({ user_message := msg, ai_response := resp, current_day := trainingDay st.user, next_day := trainingDay st.user + 1, is_completed := false, round_count := trainingRound st.user + 1 } : TrainingResult) = res := by
              simpa [processTraining, hcd, hty, hgen, hfa, hday, hfin, hpass, hman, hlt2,
                trainingDay] using hok
            refine ⟨?_, ?_, ?_, ?_, ?_⟩
            · simp [processTraining, hcd, hty, hgen, hfa, hday, hfin, hpass, hman, hlt2,
                trainingDay, setDayU, setRoundU, clearTestingU]
            · simp [processTraining, hcd, hty, hgen2, hfa, hday, hfin, hpass, hman, hlt2,
                trainingDay, trainingRound, setDayU, setRoundU, clearTestingU]
            · simp [processTraining, hcd, hty, hgen, hfa, hday, hfin, hpass, hman, hlt2,
                trainingDay, activeTestingDay, setDayU, setRoundU, clearTestingU]
            · rw [← hres2]
            · rw [← hres2]
    | some p =>
      obtain ⟨i, t⟩ := p
      have hne : ¬(findActive st.user.trainings = none ∧ st.user.current_day = 0) := by simp [hfa]
      have hact : t.status = "active" := findActive_status hfa
      have hcomp : clearTestingU (setRoundU (setDayU st.user (some i) (trainingDay st.user + 1)) (some i) 0) (some i) =
          { st.user with trainings := updAt st.user.trainings i (fun a => { a with current_day := trainingDay st.user + 1, current_round := 0, testing_day := none }) } := by
        simp [setDayU, setRoundU, clearTestingU, updAt_updAt]
      have hcomp2 : clearTestingU (setRoundU (setDayU (setRoundU st.user (some i) (trainingRound st.user + 1)) (some i) (trainingDay st.user + 1)) (some i) 0) (some i) =
          { st.user with trainings := updAt st.user.trainings i (fun a => { a with current_day := trainingDay st.user + 1, current_round := 0, testing_day := none }) } := by
        simp [setDayU, setRoundU, clearTestingU, updAt_updAt]
      have hacc := accessors_after_upd hfa
        (fun a => { a with current_day := trainingDay st.user + 1, current_round := 0, testing_day := none })
        (by simpa using hact)
      by_cases hty : dd.type = some "teaching"
      · have hres : ({ user_message := msg, ai_response := teachingResponse, current_day := trainingDay st.user, next_day := trainingDay st.user + 1, is_completed := false, round_count := 0 } : TrainingResult) = res := by
          simpa [processTraining, if_neg hne, hcd, hty, hman, hfa] using hok
        have hPT : (processTraining cat st msg now llm).1.user =
            clearTestingU (setRoundU (setDayU st.user (some i) (trainingDay st.user + 1)) (some i) 0) (some i) := by
          simp [processTraining, if_neg hne, hcd, hty, hman, hfa]
        rw [hPT, hcomp]
        refine ⟨by simpa using hacc.1, by simpa using hacc.2.1, by simpa using hacc.2.2, ?_, ?_⟩
        · rw [← hres]
        · rw [← hres]
      · cases hgen : generateResponse (cat.staticDays (testingDay st.user)) (personaLetter st.user)
            msg (trainingRound st.user + 1) (getConversationHistory st) llm with
        | error e =>
          simp [processTraining, if_neg hne, hcd, hty, hgen] at hok
        | ok resp =>
          have hresp : res.ai_response = resp := by
            simp [processTraining, if_neg hne, hcd, hty, hgen] at hok
            rw [← hok]
          rw [hresp] at hfin hpass
          have hres : ({ user_message := msg, ai_response := resp, current_day := trainingDay st.user, next_day := trainingDay st.user + 1, is_completed := false, round_count := trainingRound st.user + 1 } : TrainingResult) = res := by
            simpa [processTraining, if_neg hne, hcd, hty, hgen, hfin, hpass, hman, hlt, hfa] using hok
          have hPT : (processTraining cat st msg now llm).1.user =
              clearTestingU (setRoundU (setDayU (setRoundU st.user (some i) (trainingRound st.user + 1)) (some i) (trainingDay st.user + 1)) (some i) 0) (some i) := by
            simp [processTraining, if_neg hne, hcd, hty, hgen, hfin, hpass, hman, hlt, hfa]
          rw [hPT, hcomp2]
          refine ⟨by simpa using hacc.1, by simpa using hacc.2.1, by simpa using hacc.2.2, ?_, ?_⟩
          · rw [← hres]
          · rw [← hres]
  · intro cat st msg now llm
    cases hfa : findActive st.user.trainings with
    | none =>
      constructor
      · simp only [processTraining]
        repeat' split
        all_goals simp [hfa, completeU, setDayU, setRoundU, clearTestingU]
        all_goals (try simp [trainingDay, hfa])
      · simp only [processTraining]
        repeat' split
        all_goals simp [hfa, completeU, setDayU, setRoundU, clearTestingU]
    | some p =>
      obtain ⟨i, t⟩ := p
      constructor
      · simp only [processTraining]
        repeat' split
        all_goals simp [hfa, completeU, setDayU, setRoundU, clearTestingU]
      · simp only [processTraining]
        repeat' split
        all_goals simp [hfa, trainingDay_eq hfa, completeU, setDayU, setRoundU, clearTestingU, updAt_updAt]
        all_goals first
          | exact forall2_le_updAt hfa (Nat.le_refl _)
          | exact forall2_le_updAt hfa (Nat.le_succ _)

/-- Closed instance of the advance theorem: Scenario A of the spec, day 3
round 1 with a passing oracle verdict moves to day 4 with nextDay 4. -/
theorem passAdvance_one_step_witness :
    trainingDay (processTraining examCatalog (stateAt 3 1 none) "hi" 7 (Except.ok passVerdictText)).1.user = 4 ∧
    trainingRound (processTraining examCatalog (stateAt 3 1 none) "hi" 7 (Except.ok passVerdictText)).1.user = 0 := by
  have h := passAdvance_one_step.1 examCatalog (stateAt 3 1 none) "hi" 7 (Except.ok passVerdictText)
    { day := 3, title := "考核", type := some "exam", teaching_content := none }
    { user_message := "hi"
      ai_response := { reply := "ok", is_final := true, pass_ := true, score := 80, reason := "fine" }
      current_day := 3
      next_day := 4
      is_completed := false
      round_count := 2 }
    rfl (by decide) rfl rfl rfl rfl
  exact ⟨h.1, h.2.1⟩

/-! ## C3: conversation context scoping and ordering -/

/-- A trainee mid-attempt on day 3 with an attempt watermark of 100: the
log holds one turn of a previous attempt (created at 50), one turn of
another day, and two turns of the current attempt. -/
def scopedState : EngineState :=
  { user := { current_day := 0, current_round := none, persona := none, trainings := [activeTraining 3 2 none] }
    messages :=
      [ { training_day := 3, user_message := "old-u", ai_reply := "old-a", passed := false, score := 0, reason := "", created_at := 50 },
        { training_day := 2, user_message := "other-u", ai_reply := "other-a", passed := false, score := 0, reason := "", created_at := 110 },
        { training_day := 3, user_message := "u1", ai_reply := "a1", passed := false, score := 0, reason := "", created_at := 120 },
        { training_day := 3, user_message := "u2", ai_reply := "a2", passed := false, score := 0, reason := "", created_at := 130 } ] }

/-- C3: the assembled context correctly keeps only current-attempt turns of
the effective day (the turn from before the watermark and the turn of the
other day are excluded), but the reversed iteration emits the pairs newest
first, contradicting the oldest-first order that the spec and the code
comment (newest at the back) require. -/
theorem conversationHistory_newest_first :
    getConversationHistory scopedState =
      [ { role := "user", content := "u2" }, { role := "assistant", content := "a2" },
        { role := "user", content := "u1" }, { role := "assistant", content := "a1" } ] ∧
    getConversationHistory scopedState ≠
      [ { role := "user", content := "u1" }, { role := "assistant", content := "a1" },
        { role := "user", content := "u2" }, { role := "assistant", content := "a2" } ] := by
  exact ⟨rfl, by decide⟩

/-! ## C7: fail-open parsing -/

/-- C7 counterexample: a whole-string JSON object with no reply key is not
found by the tolerant search (no quoted reply literal), yet whole-string
parsing succeeds, so from_dict is applied: the result carries an empty
reply and a true pass flag, not the verbatim input with all flags cleared
that the claim requires. -/
theorem parseResponse_no_reply_counterexample :
    jsonCandidate "\x7b\"pass\": true\x7d" = none ∧
    jsonLoads "\x7b\"pass\": true\x7d" = some (Json.obj [("pass", Json.bool true)]) ∧
    objGet [("pass", Json.bool true)] "reply" = none ∧
    parseResponse "\x7b\"pass\": true\x7d" =
      some { reply := "", is_final := false, pass_ := true, score := 0, reason := "" } ∧
    parseResponse "\x7b\"pass\": true\x7d" ≠
      some { reply := "\x7b\"pass\": true\x7d", is_final := false, pass_ := false, score := 0, reason := "" } := by
  exact ⟨rfl, rfl, rfl, rfl, by decide⟩

/-- C7 amended: when no JSON can be recovered at all — the tolerant
substring search finds no parseable candidate and the whole string is not
valid JSON — the parser fails open: isFinal false, passed false, score 0,
and the reply is the raw input verbatim. -/
theorem parseResponse_failopen :
    ∀ (content : String),
      (∀ sub, jsonCandidate content = some sub → jsonLoads sub = none) →
      jsonLoads content = none →
      parseResponse content =
        some { reply := content, is_final := false, pass_ := false, score := 0, reason := "" } := by
  intro content hc hw
  cases hcand : jsonCandidate content with
  | none => simp [parseResponse, parseResponseWhole, hcand, hw]
  | some sub => simp [parseResponse, parseResponseWhole, hcand, hc sub hcand, hw]

/-- Closed instance of the fail-open theorem on plain prose with no braces
or JSON. -/
theorem parseResponse_failopen_witness :
    parseResponse "sorry about that, no score." =
      some { reply := "sorry about that, no score.", is_final := false, pass_ := false, score := 0, reason := "" } :=
  parseResponse_failopen "sorry about that, no score."
    (fun sub h => by rw [show jsonCandidate "sorry about that, no score." = none from rfl] at h; cases h)
    rfl

/-! ## C10: the progress summary completion flag -/

/-- C10: the summary reports is_completed exactly when the accessor day
exceeds the maximum day 14; consequently after a final pass on day 14 —
which marks the training completed and leaves its stored day at 14 — the
summary reports is_completed as false even though the training row status
is completed. -/
theorem progressSummary_is_completed :
    (∀ (cat : Catalog) (st : EngineState),
      (getProgressSummary cat st).is_completed = decide (trainingDay st.user > MAX_TRAINING_DAY)) ∧
    ((processTraining examCatalog (stateAt 14 1 none) "hi" 7 (Except.ok passVerdictText)).1.user.trainings.map
      (fun t => (t.status, t.current_day))) = [("completed", 14)] ∧
    ((processTraining examCatalog (stateAt 14 1 none) "hi" 7 (Except.ok passVerdictText)).2.map
      (fun r => r.is_completed)) = Except.ok true ∧
    (getProgressSummary examCatalog
      (processTraining examCatalog (stateAt 14 1 none) "hi" 7 (Except.ok passVerdictText)).1).is_completed = false := by
  exact ⟨fun cat st => rfl, rfl, rfl, rfl⟩
